import Mathlib

/-!
Verification of the index algebra (`vectorbt/utils/index_fns.py`) and the
chart-widget state machines (`vectorbt/widgets/widgets.py`) of the vectorbt
repository, as a shallow embedding: pandas indexes become lists of labels
(single-level) or lists of label rows (multi-level), numpy arrays become
nested lists, widgets become records, and every fallible operation returns
`Except String`.
-/

namespace Vbt

/-- A label of a pandas index: a string or an integer value.  Mixed-type
levels are what `drop_redundant_levels` compares against `np.arange`. -/
inductive Label where
  | str (s : String)
  | nat (n : Nat)
deriving DecidableEq, Repr

/-- Default label used for out-of-range positional access (well-formed
indexes never hit it). -/
def dfl : Label := .str ""

/-- A pandas index: `flat` models `pd.Index` (labels plus an optional name),
`multi` models `pd.MultiIndex` (label rows plus one optional name per level). -/
inductive PIndex where
  | flat (labels : List Label) (name : Option String)
  | multi (rows : List (List Label)) (names : List (Option String))
deriving DecidableEq, Repr

/-- `len(index)`: the number of rows. -/
def PIndex.length : PIndex → Nat
  | .flat ls _ => ls.length
  | .multi rows _ => rows.length

/-- The rows of the index once wrapped into a MultiIndex, as
`pd.MultiIndex.from_arrays([index])` does for a flat index. -/
def PIndex.rows : PIndex → List (List Label)
  | .flat ls _ => ls.map fun l => [l]
  | .multi rows _ => rows

/-- The level names of the index once wrapped into a MultiIndex. -/
def PIndex.names : PIndex → List (Option String)
  | .flat _ n => [n]
  | .multi _ ns => ns

/-- `index.nlevels`: 1 for a flat index, the number of levels otherwise. -/
def PIndex.nlevels : PIndex → Nat
  | .flat _ _ => 1
  | .multi _ ns => ns.length

/-- `index.get_level_values(i)` over the row representation: the i-th column. -/
def getLevelValues (rows : List (List Label)) (i : Nat) : List Label :=
  rows.map fun r => r.getD i dfl

/-- `pd.MultiIndex.from_arrays(cols)`: rebuild the rows from the columns
(`n` is the common column length, i.e. the number of rows). -/
def fromArrays (n : Nat) (cols : List (List Label)) : List (List Label) :=
  (List.range n).map fun i => cols.map fun c => c.getD i dfl

/-- Modelled from the spec: `checks.assert_same_shape` (module
`vectorbt.utils.checks`, whose source is not part of the shown excerpts)
raises when the compared dimensions differ; the spec has "`stack`
concatenates levels of equal-length indexes" and "Shape mismatches between
supplied data and declared axis/trace cardinalities fail fast with a
validation error". -/
def assert_same_shape (n m : Nat) : Except String Unit :=
  if n = m then .ok () else .error "AssertionError: shapes do not match"

/-- Code-point comparison of characters, as Python compares string labels. -/
def charLtB (c d : Char) : Bool := decide (c.toNat < d.toNat)

/-- Lexicographic strict comparison of character lists. -/
def chLt : List Char → List Char → Bool
  | [], [] => false
  | [], _ :: _ => true
  | _ :: _, [] => false
  | c :: cs, d :: ds => if c = d then chLt cs ds else charLtB c d

/-- Lexicographic strict comparison of strings by code point. -/
def strLtB (a b : String) : Bool := chLt a.data b.data

/-- Boolean ordering on labels (integers before strings), used for the
sorted distinct value set that pandas keeps per level. -/
def Label.leb : Label → Label → Bool
  | .nat a, .nat b => decide (a ≤ b)
  | .nat _, .str _ => true
  | .str _, .nat _ => false
  | .str a, .str b => strLtB a b || decide (a = b)

/-- Insert a label into a sorted list of labels. -/
def insertSorted (x : Label) : List Label → List Label
  | [] => [x]
  | y :: ys => if Label.leb x y then x :: y :: ys else y :: insertSorted x ys

/-- Insertion sort on labels. -/
def sortLabels : List Label → List Label
  | [] => []
  | x :: xs => insertSorted x (sortLabels xs)

/-- Remove adjacent duplicates from a list of labels. -/
def dedupAdj : List Label → List Label
  | [] => []
  | [x] => [x]
  | x :: y :: ys => if x = y then dedupAdj (y :: ys) else x :: dedupAdj (y :: ys)

/-- `index.levels[i]` for a column: the sorted, deduplicated value set that
pandas stores for a MultiIndex level. -/
def sortedDedup (col : List Label) : List Label :=
  dedupAdj (sortLabels col)

/-- One step of the loop in `stack`: assert equal shape, wrap both sides
into MultiIndexes, collect the level columns of both, and rebuild with
`pd.MultiIndex.from_arrays`. -/
def stackPair (index1 index2 : PIndex) : Except String PIndex := do
  let _ ← assert_same_shape index1.length index2.length
  let cols1 := (List.range index1.names.length).map fun i => getLevelValues index1.rows i
  let cols2 := (List.range index2.names.length).map fun i => getLevelValues index2.rows i
  pure (.multi (fromArrays index1.length (cols1 ++ cols2)) (index1.names ++ index2.names))

/-- `stack(*indexes)`: fold `stackPair` over the remaining indexes. -/
def stack (first : PIndex) (rest : List PIndex) : Except String PIndex :=
  rest.foldl (fun acc index2 => acc.bind fun index1 => stackPair index1 index2) (.ok first)

/-- `np.repeat(index.to_numpy(), k)` rebuilt as the same kind of index with
the same name(s): each element repeated `k` times. -/
def combineExpand (idx : PIndex) (k : Nat) : PIndex :=
  match idx with
  | .flat ls n => .flat ((ls.map fun l => List.replicate k l).flatten) n
  | .multi rows ns => .multi ((rows.map fun r => List.replicate k r).flatten) ns

/-- `np.tile(index.to_numpy(), k)` rebuilt as the same kind of index with
the same name(s): the whole sequence repeated `k` times. -/
def combineTile (idx : PIndex) (k : Nat) : PIndex :=
  match idx with
  | .flat ls n => .flat ((List.replicate k ls).flatten) n
  | .multi rows ns => .multi ((List.replicate k rows).flatten) ns

/-- `combine(*indexes)`: Cartesian product, short-circuiting (returning from
the whole loop) as soon as one side has length one. -/
def combine (first : PIndex) (rest : List PIndex) : Except String PIndex :=
  match rest with
  | [] => .ok first
  | index2 :: rest =>
    if first.length = 1 then .ok index2
    else if index2.length = 1 then .ok first
    else
      (stackPair (combineExpand first index2.length) (combineTile index2 first.length)).bind
        fun newIndex => combine newIndex rest

/-- `tile(index, n)`: the whole index tiled `n` times, names preserved. -/
def tile (index : PIndex) (n : Nat) : PIndex :=
  match index with
  | .multi rows ns => .multi ((List.replicate n rows).flatten) ns
  | .flat ls nm => .flat ((List.replicate n ls).flatten) nm

/-- The per-level test of `drop_redundant_levels`: a level is dropped when
its value set has a single element, or when it is un-named, its sorted value
set is the literal range `0..len-1`, and the level's column has no repeats
(its length equals the value-set's length). -/
def isRedundantLevel (name : Option String) (col : List Label) : Bool :=
  let level := sortedDedup col
  if level.length = 1 then true
  else if name = none ∧ level = (List.range level.length).map Label.nat then
    decide (col.length = level.length)
  else false

/-- `index.droplevel(toDrop)`: remove the listed level positions; when a
single level remains pandas returns a flat index carrying that level's name.
Callers guard against dropping every level. -/
def droplevel (rows : List (List Label)) (ns : List (Option String))
    (toDrop : List Nat) : PIndex :=
  let keep := (List.range ns.length).filter fun i => !(toDrop.contains i)
  match keep with
  | [j] => .flat (getLevelValues rows j) (ns.getD j none)
  | _ => .multi (rows.map fun r => keep.map fun j => r.getD j dfl)
               (keep.map fun j => ns.getD j none)

/-- `drop_redundant_levels(index)`: on a MultiIndex of length greater than
one, drop every redundant level, but only when some level would remain. -/
def drop_redundant_levels (index : PIndex) : PIndex :=
  if index.length = 1 then index
  else
    match index with
    | .flat _ _ => index
    | .multi rows ns =>
      let levelsToDrop := (List.range ns.length).filter fun i =>
        isRedundantLevel (ns.getD i none) (getLevelValues rows i)
      if levelsToDrop.length < ns.length then droplevel rows ns levelsToDrop
      else index

/-- `index.duplicated().any()`: some row occurs twice. -/
def dupAny : List (List Label) → Bool
  | [] => false
  | r :: rs => (rs.any fun s => decide (s = r)) || dupAny rs

/-- Strict Boolean ordering on labels, the `<` underlying `Label.leb`. -/
def Label.ltb : Label → Label → Bool
  | .nat a, .nat b => decide (a < b)
  | .nat _, .str _ => true
  | .str _, .nat _ => false
  | .str a, .str b => strLtB a b

/-- Lexicographic comparison of label rows, as Python compares tuples. -/
def rowLt : List Label → List Label → Bool
  | [], [] => false
  | [], _ :: _ => true
  | _ :: _, [] => false
  | a :: as, b :: bs => if a = b then rowLt as bs else Label.ltb a b

/-- Insert a row position into a position list sorted by row order
(stable: equal rows keep the earlier position first). -/
def insertIdx (rows : List (List Label)) (i : Nat) : List Nat → List Nat
  | [] => [i]
  | j :: js =>
    if rowLt (rows.getD i []) (rows.getD j []) then i :: j :: js
    else j :: insertIdx rows i js

/-- `np.argsort(index)`: the row positions sorted by row value. -/
def argsortRows (rows : List (List Label)) : List Nat :=
  (List.range rows.length).foldl (fun acc i => insertIdx rows i acc) []

/-- `np.searchsorted(sorted, target)` (left insertion point): the number of
rows strictly below the target. -/
def searchsortedL (sorted : List (List Label)) (target : List Label) : Nat :=
  (sorted.filter fun r => rowLt r target).length

/-- The inner matching loop of `align_to`: for level `i` of the first index,
the first level `j` of the second index with the same name and the same
sorted distinct value set. -/
def matchLevels (names1 : List (Option String)) (rows1 : List (List Label))
    (names2 : List (Option String)) (rows2 : List (List Label)) : List Nat :=
  ((List.range names1.length).map fun i =>
    (List.range names2.length).find? fun j =>
      decide (names1.getD i none = names2.getD j none ∧
        sortedDedup (getLevelValues rows1 i) = sortedDedup (getLevelValues rows2 j))
  ).filterMap id

/-- The selection `align_to` returns: `pd.IndexSlice[:]` when no aligning is
needed, a list of row positions otherwise. -/
inductive AlignResult where
  | sliceAll
  | positions (ps : List Nat)
deriving DecidableEq, Repr

/-- `align_to(index1, index2)`: wrap both into MultiIndexes, reject a first
index with duplicate rows, short-circuit on equality, then align via shared
levels (`np.tile([0])` in the length-one branch lacks its required `reps`
argument and raises a `TypeError`; an alignment position past the end of the
sorted first index raises numpy's `IndexError`). -/
def align_to (index1 index2 : PIndex) : Except String AlignResult :=
  let rows1 := index1.rows
  let rows2 := index2.rows
  let names1 := index1.names
  let names2 := index2.names
  if dupAny rows1 then
    .error "ValueError: Duplicates index values are not allowed for the first index"
  else if rows1 = rows2 then .ok .sliceAll
  else if rows1.length ≤ rows2.length then
    if rows1.length = 1 then .error "TypeError: tile() missing 1 required positional argument: reps"
    else
      let js := matchLevels names1 rows1 names2 rows2
      if names1.length = js.length then
        let newRows := fromArrays rows2.length (js.map fun j => getLevelValues rows2 j)
        let xsorted := argsortRows rows1
        let sortedRows := xsorted.map fun i => rows1.getD i []
        let ypos := newRows.map fun t => searchsortedL sortedRows t
        if ypos.all fun p => decide (p < xsorted.length) then
          .ok (.positions (ypos.map fun p => xsorted.getD p 0))
        else .error "IndexError: index out of bounds"
      else .error "ValueError: Indexes could not be aligned together"
  else .error "ValueError: Indexes could not be aligned together"

/-- A numpy-convertible data argument: a scalar, a 1-dimensional array, or a
2-dimensional array given as its list of rows. -/
inductive NArray (α : Type) where
  | d0 (x : α)
  | d1 (xs : List α)
  | d2 (rows : List (List α))
deriving DecidableEq, Repr

/-- Modelled from the spec: `reshape_fns.to_2d` (module
`vectorbt.utils.reshape_fns`, whose source is not part of the shown
excerpts) puts the data into "2-dimensional form": a scalar becomes a 1x1
array and a 1-dimensional array becomes a single column, matching the
documented data shape `(x_labels, trace_names)`. -/
def to_2d : NArray α → List (List α)
  | .d0 x => [[x]]
  | .d1 xs => xs.map fun x => [x]
  | .d2 rows => rows

/-- `shape[0]` of a 2-dimensional array: its number of rows. -/
def shapeRows (m : List (List α)) : Nat := m.length

/-- `shape[1]` of a 2-dimensional array: the length of its rows. -/
def shapeCols (m : List (List α)) : Nat := (m.headD []).length

/-- `data[:, i]`: the i-th column of a 2-dimensional array. -/
def colOf (m : List (List Int)) (i : Nat) : List Int :=
  m.map fun r => r.getD i 0

/-- `data.transpose()` of a 2-dimensional array. -/
def transposeM (m : List (List Int)) : List (List Int) :=
  (List.range (shapeCols m)).map fun j => m.map fun r => r.getD j 0

/-- `enumerate`-style map, as the widgets' `for i, trace in
enumerate(self.data)` loops update the traces. -/
def enumMap (f : Nat → α → β) : Nat → List α → List β
  | _, [] => []
  | i, x :: xs => f i x :: enumMap f (i + 1) xs

/-- Whether an `Except` computation succeeded (no exception raised). -/
def isOkE : Except String α → Bool
  | .ok _ => true
  | .error _ => false

instance [DecidableEq ε] [DecidableEq α] : DecidableEq (Except ε α) := fun a b =>
  match a, b with
  | .ok x, .ok y =>
    if h : x = y then .isTrue (by rw [h]) else .isFalse (by simp [h])
  | .error x, .error y =>
    if h : x = y then .isTrue (by rw [h]) else .isFalse (by simp [h])
  | .ok _, .error _ => .isFalse (by simp)
  | .error _, .ok _ => .isFalse (by simp)

/-- One `plotly.graph_objects.Scatter` trace: its x labels, name, line color
and y value buffer. -/
structure ScatterTrace where
  x : List String
  name : Option String
  color : Option String
  y : Option (List Int)
deriving DecidableEq, Repr

/-- The state a `Scatter` widget owns: the declared axis labels and trace
names, the figure's trace list, and the figure layout (a key-value map). -/
structure Scatter where
  x_labels : List String
  trace_names : List (Option String)
  traces : List ScatterTrace
  layout : List (String × String)
deriving DecidableEq, Repr

/-- `Scatter.update_data(data)`: convert to 2-dimensional form, validate the
shape against `x_labels` (rows) and `trace_names` (columns), then write each
column into the matching trace's y buffer. -/
def Scatter.update_data (self : Scatter) (data : NArray Int) : Except String Scatter := do
  let d := to_2d data
  let _ ← assert_same_shape (shapeRows d) self.x_labels.length
  let _ ← assert_same_shape (shapeCols d) self.trace_names.length
  pure { self with traces := enumMap (fun i tr => { tr with y := some (colOf d i) }) 0 self.traces }

/-- One `plotly.graph_objects.Bar` trace. -/
structure BarTrace where
  x : List String
  name : Option String
  marker_colorscale : Option String
  marker_color : Option (List Int)
  y : Option (List Int)
deriving DecidableEq, Repr

/-- The state a `Bar` widget owns. -/
structure Bar where
  x_labels : List String
  trace_names : List (Option String)
  traces : List BarTrace
  layout : List (String × String)
deriving DecidableEq, Repr

/-- `Bar.update_data(data)`: validate the shape as `Scatter` does, write
each column into the matching trace's y buffer, and re-color markers by
value when the trace has a colorscale. -/
def Bar.update_data (self : Bar) (data : NArray Int) : Except String Bar := do
  let d := to_2d data
  let _ ← assert_same_shape (shapeRows d) self.x_labels.length
  let _ ← assert_same_shape (shapeCols d) self.trace_names.length
  let f : Nat → BarTrace → BarTrace := fun i b =>
    let b2 := { b with y := some (colOf d i) }
    if b2.marker_colorscale.isSome then { b2 with marker_color := some (colOf d i) } else b2
  pure { self with traces := enumMap f 0 self.traces }

/-- The state a `Heatmap` widget owns: axis labels, orientation, and its
single trace's x, y and z buffers. -/
structure Heatmap where
  x_labels : List String
  y_labels : List String
  horizontal : Bool
  trace_x : List String
  trace_y : List String
  trace_z : Option (List (List Int))
  layout : List (String × String)
deriving DecidableEq, Repr

/-- `Heatmap.update_data(data)`: convert to 2-dimensional form, validate
columns against `x_labels` and rows against `y_labels`, then write the data
(transposed when horizontal) into the trace's z buffer. -/
def Heatmap.update_data (self : Heatmap) (data : NArray Int) : Except String Heatmap := do
  let d := to_2d data
  let _ ← assert_same_shape (shapeCols d) self.x_labels.length
  let _ ← assert_same_shape (shapeRows d) self.y_labels.length
  pure { self with trace_z := some (if self.horizontal then transposeM d else d) }

/-- The normalized position `rgb_from_cmap` computes: the midpoint when the
range is degenerate, the proportional position in the range otherwise. -/
def norm_value (value : ℚ) (value_range : ℚ × ℚ) : ℚ :=
  if value_range.1 = value_range.2 then 1 / 2
  else (value - value_range.1) / (value_range.2 - value_range.1)

/-- `rgb_from_cmap(cmap_name, value, value_range)`: map the value range to
the colormap and format the value's color.  The colormap lookup itself
(matplotlib's `plt.get_cmap`, including the rounding to 0..255 channels) is
outside the shown excerpts and the spec puts colormap math out of scope, so
it enters as an uninterpreted function `cmap`. -/
def rgb_from_cmap (cmap : String → ℚ → Int × Int × Int) (cmap_name : String)
    (value : ℚ) (value_range : ℚ × ℚ) : String :=
  let c := cmap cmap_name (norm_value value value_range)
  "rgb(" ++ toString c.1 ++ "," ++ toString c.2.1 ++ "," ++ toString c.2.2 ++ ")"

/-- The state an `Indicator` widget owns: the running value range, the
colormap name, and its single gauge trace's attributes. -/
structure Indicator where
  value_range : Option (ℚ × ℚ)
  cmap_name : Option String
  label : Option String
  value : Option ℚ
  delta_reference : Option ℚ
  gauge_axis_range : Option (ℚ × ℚ)
  gauge_bar_color : Option String
deriving DecidableEq, Repr

/-- `Indicator.update_data(value)`: extend the running value range by the
new value (or start it at `(value, value)`), push the range into the gauge
axis, re-color the gauge bar through the colormap, move the old value into
the delta reference and store the new value. -/
def Indicator.update_data (cmap : String → ℚ → Int × Int × Int)
    (self : Indicator) (value : ℚ) : Indicator :=
  let value_range :=
    match self.value_range with
    | none => (value, value)
    | some (lo, hi) => (min lo value, max hi value)
  let self := { self with value_range := some value_range }
  let self := { self with gauge_axis_range := some value_range }
  let self :=
    match self.cmap_name with
    | some nm => { self with gauge_bar_color := some (rgb_from_cmap cmap nm value value_range) }
    | none => self
  { self with delta_reference := self.value, value := some value }

/-! Supporting lemmas. -/

theorem length_flatten_map_replicate (k : Nat) (ls : List α) :
    ((ls.map fun l => List.replicate k l).flatten).length = ls.length * k := by
  induction ls with
  | nil => simp
  | cons x xs ih => simp [ih, Nat.succ_mul, Nat.add_comm]

theorem length_flatten_replicate (k : Nat) (ls : List α) :
    ((List.replicate k ls).flatten).length = k * ls.length := by
  induction k with
  | zero => simp
  | succ m ih => simp [List.replicate_succ, ih, Nat.succ_mul, Nat.add_comm]

theorem length_combineExpand (idx : PIndex) (k : Nat) :
    (combineExpand idx k).length = idx.length * k := by
  cases idx with
  | flat ls n => exact length_flatten_map_replicate k ls
  | multi rows ns => exact length_flatten_map_replicate k rows

theorem length_combineTile (idx : PIndex) (k : Nat) :
    (combineTile idx k).length = k * idx.length := by
  cases idx with
  | flat ls n => exact length_flatten_replicate k ls
  | multi rows ns => exact length_flatten_replicate k rows

theorem stackPair_eq (i1 i2 : PIndex) (h : i1.length = i2.length) :
    stackPair i1 i2 = Except.ok (.multi
      (fromArrays i1.length
        (((List.range i1.names.length).map fun i => getLevelValues i1.rows i) ++
          ((List.range i2.names.length).map fun i => getLevelValues i2.rows i)))
      (i1.names ++ i2.names)) := by
  simp [stackPair, assert_same_shape, h, Except.bind]

theorem length_fromArrays (n : Nat) (cols : List (List Label)) :
    (fromArrays n cols).length = n := by
  simp [fromArrays]

theorem PIndex.length_multi (rows : List (List Label)) (ns : List (Option String)) :
    PIndex.length (.multi rows ns) = rows.length := rfl

theorem PIndex.length_flat (ls : List Label) (n : Option String) :
    PIndex.length (.flat ls n) = ls.length := rfl

theorem okBind (x : α) (f : α → Except String β) :
    (Except.ok x >>= f : Except String β) = f x := rfl

theorem errBind (e : String) (f : α → Except String β) :
    (Except.error e >>= f : Except String β) = Except.error e := rfl

/-! The claims. -/

/-- C1: for every pair of indexes `a` and `b`, `combine(a, b)` succeeds and
returns an index of length `len(a) * len(b)`; when `len(a) = 1` it returns
`b` unchanged, and when `len(b) = 1` (with `len(a) ≠ 1`) it returns `a`
unchanged. -/
theorem combine_cartesian_length (a b : PIndex) :
    (a.length = 1 → combine a [b] = Except.ok b) ∧
    (a.length ≠ 1 → b.length = 1 → combine a [b] = Except.ok a) ∧
    ∃ r, combine a [b] = Except.ok r ∧ r.length = a.length * b.length := by
  by_cases ha : a.length = 1
  · refine ⟨fun _ => by simp [combine, ha], fun h => absurd ha h, ⟨b, by simp [combine, ha], ?_⟩⟩
    rw [ha, one_mul]
  · by_cases hb : b.length = 1
    · refine ⟨fun h => absurd h ha, fun _ _ => by simp [combine, ha, hb], ⟨a, by simp [combine, ha, hb], ?_⟩⟩
      rw [hb, mul_one]
    · refine ⟨fun h => absurd h ha, fun _ h => absurd h hb, ?_⟩
      have hlen : (combineExpand a b.length).length = (combineTile b a.length).length := by
        rw [length_combineExpand, length_combineTile]
      have hs := stackPair_eq _ _ hlen
      refine ⟨.multi
          (fromArrays (combineExpand a b.length).length
            (((List.range (combineExpand a b.length).names.length).map fun i =>
                getLevelValues (combineExpand a b.length).rows i) ++
              ((List.range (combineTile b a.length).names.length).map fun i =>
                getLevelValues (combineTile b a.length).rows i)))
          ((combineExpand a b.length).names ++ (combineTile b a.length).names), ?_, ?_⟩
      · simp only [combine, ha, hb, if_false, hs]
        rfl
      · rw [PIndex.length_multi, length_fromArrays, length_combineExpand]

/-- C2 counterexample: for `a = b = Index(['x', 'x'])` (equal element-wise)
`align_to(a, b)` does not return the identity ordering — it raises on the
duplicate labels instead. -/
theorem align_to_equal_not_identity_at_dup :
    align_to (.flat [.str "x", .str "x"] none) (.flat [.str "x", .str "x"] none) ≠
      Except.ok AlignResult.sliceAll := by decide

/-- C2 (amended): for every index `a` without duplicate rows and every index
`b` equal to `a` element-wise (same labels in the same order), `align_to(a, b)`
returns the identity ordering. -/
theorem align_to_identity (a b : PIndex) (hdup : dupAny a.rows = false)
    (heq : a.rows = b.rows) :
    align_to a b = Except.ok AlignResult.sliceAll := by
  have hd2 : dupAny b.rows = false := heq ▸ hdup
  simp [align_to, hdup, heq, hd2]

/-- C2 witness: `align_to` of two equal duplicate-free indexes at a concrete
input. -/
theorem align_to_identity_witness :
    align_to (.flat [.str "x", .str "y"] none) (.flat [.str "x", .str "y"] none) =
      Except.ok AlignResult.sliceAll :=
  align_to_identity _ _ (by decide) rfl

/-- C3: for every index `a` containing a duplicated row and every index `b`,
`align_to(a, b)` raises (this is checked before the equality shortcut, so it
holds when `a` equals `b` too). -/
theorem align_to_duplicates_error (a b : PIndex) (h : dupAny a.rows = true) :
    align_to a b =
      Except.error "ValueError: Duplicates index values are not allowed for the first index" := by
  simp [align_to, h]

/-- C3 witness: `align_to` raises at a concrete duplicated index, equal to
the second index. -/
theorem align_to_duplicates_error_witness :
    align_to (.flat [.str "x", .str "x"] (some "n")) (.flat [.str "x", .str "x"] (some "n")) =
      Except.error "ValueError: Duplicates index values are not allowed for the first index" :=
  align_to_duplicates_error _ _ (by decide)

/-- The claim's selection "take every k-th element" (positions 0, k, 2k, ...)
applied to the elements of an index. -/
def everyNth (index : PIndex) (k : Nat) : PIndex :=
  match index with
  | .flat ls n =>
    .flat ((List.range ls.length).filterMap fun i => if i % k = 0 then ls[i]? else none) n
  | .multi rows ns =>
    .multi ((List.range rows.length).filterMap fun i => if i % k = 0 then rows[i]? else none) ns

/-- C4 counterexample: for the non-empty index `['a', 'b']` and `n = 2`,
taking every `len(index)`-th element of `tile(index, 2)` yields `['a', 'a']`,
not the original index. -/
theorem tile_every_nth_claim_false :
    PIndex.length (.flat [.str "a", .str "b"] none) ≠ 0 ∧ 1 ≤ 2 ∧
    everyNth (tile (.flat [.str "a", .str "b"] none) 2)
        (PIndex.length (.flat [.str "a", .str "b"] none)) ≠
      .flat [.str "a", .str "b"] none := by decide

theorem rows_tile (index : PIndex) (n : Nat) :
    (tile index n).rows = (List.replicate n index.rows).flatten := by
  cases index with
  | multi rows ns => rfl
  | flat ls nm =>
    show ((List.replicate n ls).flatten).map (fun l => [l]) =
      (List.replicate n (ls.map fun l => [l])).flatten
    rw [List.map_flatten, List.map_replicate]

theorem length_rows (index : PIndex) : index.rows.length = index.length := by
  cases index <;> simp [PIndex.rows, PIndex.length]

theorem flatten_replicate_block (l : List α) (n k : Nat) (hk : k < n) :
    (((List.replicate n l).flatten).drop (k * l.length)).take l.length = l := by
  induction k generalizing n with
  | zero =>
    cases n with
    | zero => omega
    | succ m =>
      rw [List.replicate_succ, List.flatten_cons, Nat.zero_mul, List.drop_zero,
        List.take_left]
  | succ j ih =>
    cases n with
    | zero => omega
    | succ m =>
      rw [List.replicate_succ, List.flatten_cons, Nat.succ_mul, Nat.add_comm,
        List.drop_append]
      exact ih m (by omega)

/-- C4 (amended): `tile(index, n)` followed by taking any of its `n`
consecutive blocks of `len(index)` elements (rather than every
`len(index)`-th element) reproduces the original index. -/
theorem tile_block_reproduces (index : PIndex) (n k : Nat) (hk : k < n) :
    (((tile index n).rows.drop (k * index.length)).take index.length) = index.rows := by
  rw [rows_tile, ← length_rows]
  exact flatten_replicate_block index.rows n k hk

/-- C4 witness: the second block of `tile(['a','b'], 2)` is the original
index. -/
theorem tile_block_reproduces_witness :
    (((tile (.flat [.str "a", .str "b"] none) 2).rows.drop
        (1 * PIndex.length (.flat [.str "a", .str "b"] none))).take
      (PIndex.length (.flat [.str "a", .str "b"] none))) =
      PIndex.rows (.flat [.str "a", .str "b"] none) :=
  tile_block_reproduces _ 2 1 (by decide)

/-- C5 counterexample: in the two-row index with levels `['a','a']` (one
distinct value) and un-named `[0, 1]` (two distinct values), every level's
value set has cardinality 1 except exactly one level, yet
`drop_redundant_levels` leaves both levels in place: the remaining level is
itself redundant (an un-named positional range), so dropping all redundant
levels would leave nothing and the index is returned unchanged. -/
theorem drop_redundant_levels_claim_false :
    (sortedDedup (getLevelValues [[.str "a", .nat 0], [.str "a", .nat 1]] 0)).length = 1 ∧
    (sortedDedup (getLevelValues [[.str "a", .nat 0], [.str "a", .nat 1]] 1)).length ≠ 1 ∧
    (drop_redundant_levels
        (.multi [[.str "a", .nat 0], [.str "a", .nat 1]] [some "l", none])).nlevels ≠ 1 := by
  decide

theorem isRedundantLevel_singleton (name : Option String) (x : Label) :
    isRedundantLevel name [x] = true := by
  simp [isRedundantLevel, sortedDedup, sortLabels, insertSorted, dedupAdj]

theorem length_filter_ne_range (n k : Nat) (hk : k < n) :
    ((List.range n).filter fun i => decide (i ≠ k)).length = n - 1 := by
  induction n with
  | zero => omega
  | succ m ih =>
    rw [List.range_succ, List.filter_append, List.length_append]
    by_cases h : k = m
    · subst h
      have h1 : (List.range k).filter (fun i => decide (i ≠ k)) = List.range k :=
        List.filter_eq_self.mpr (by
          intro a ha
          rw [List.mem_range] at ha
          simpa using Nat.ne_of_lt ha)
      rw [h1]
      simp
    · have hk' : k < m := Nat.lt_of_le_of_ne (Nat.le_of_lt_succ hk) h
      have hm : m ≠ k := fun hh => h hh.symm
      rw [ih hk']
      simp [hm]
      omega

theorem filter_eq_range_singleton (n k : Nat) (hk : k < n) :
    ((List.range n).filter fun i => decide (i = k)) = [k] := by
  induction n with
  | zero => omega
  | succ m ih =>
    rw [List.range_succ, List.filter_append]
    by_cases h : k = m
    · subst h
      have h1 : (List.range k).filter (fun i => decide (i = k)) = [] :=
        List.filter_eq_nil_iff.mpr (by
          intro a ha
          rw [List.mem_range] at ha
          simpa using Nat.ne_of_lt ha)
      rw [h1]
      simp
    · have hk' : k < m := Nat.lt_of_le_of_ne (Nat.le_of_lt_succ hk) h
      have hm : ¬ (m = k) := fun hh => h hh.symm
      rw [ih hk']
      simp [hm]

/-- C5 (amended): for every multi-level index in which every level's
distinct-value set has cardinality 1 except exactly one level, and that one
remaining level is itself not redundant (not an un-named positional-range
level either), `drop_redundant_levels` returns an index with exactly one
level. -/
theorem drop_redundant_levels_single (rows : List (List Label))
    (ns : List (Option String)) (istar : Nat)
    (hists : istar < ns.length)
    (hred : ∀ i, i < ns.length → i ≠ istar →
      isRedundantLevel (ns.getD i none) (getLevelValues rows i) = true)
    (hstar : isRedundantLevel (ns.getD istar none) (getLevelValues rows istar) = false) :
    (drop_redundant_levels (.multi rows ns)).nlevels = 1 := by
  have hr1 : rows.length ≠ 1 := by
    intro h
    match rows, h with
    | [r], _ =>
      have := isRedundantLevel_singleton (ns.getD istar none) (r.getD istar dfl)
      rw [show getLevelValues [r] istar = [r.getD istar dfl] from rfl] at hstar
      rw [hstar] at this
      exact Bool.false_ne_true this
  have hfilter : ((List.range ns.length).filter fun i =>
      isRedundantLevel (ns.getD i none) (getLevelValues rows i)) =
      (List.range ns.length).filter fun i => decide (i ≠ istar) := by
    apply List.filter_congr
    intro i hi
    rw [List.mem_range] at hi
    by_cases h : i = istar
    · subst h
      rw [hstar]
      simp
    · rw [hred i hi h]
      simp [h]
  have hdroplen : ((List.range ns.length).filter fun i => decide (i ≠ istar)).length =
      ns.length - 1 := length_filter_ne_range ns.length istar hists
  have hkeep : ((List.range ns.length).filter fun i =>
      !(((List.range ns.length).filter fun j => decide (j ≠ istar)).contains i)) = [istar] := by
    have hc : ∀ i ∈ List.range ns.length,
        (!(((List.range ns.length).filter fun j => decide (j ≠ istar)).contains i)) =
          decide (i = istar) := by
      intro i hi
      by_cases h : i = istar
      · subst h
        have hnm : i ∉ (List.range ns.length).filter fun j => decide (j ≠ i) := by
          intro hmem
          rw [List.mem_filter] at hmem
          simpa using hmem.2
        have hcf : ¬ ((((List.range ns.length).filter fun j => decide (j ≠ i)).contains i) = true) :=
          fun hmem => hnm (List.elem_iff.mp hmem)
        rw [Bool.not_eq_true] at hcf
        rw [hcf]
        simp
      · have hm : i ∈ (List.range ns.length).filter fun j => decide (j ≠ istar) := by
          rw [List.mem_filter]
          exact ⟨hi, by simpa using h⟩
        have hct : (((List.range ns.length).filter fun j => decide (j ≠ istar)).contains i) = true :=
          List.elem_iff.mpr hm
        rw [hct]
        simp [h]
    rw [List.filter_congr hc]
    exact filter_eq_range_singleton ns.length istar hists
  show (drop_redundant_levels (.multi rows ns)).nlevels = 1
  rw [drop_redundant_levels]
  rw [if_neg (by rw [PIndex.length_multi]; exact hr1)]
  simp only [hfilter]
  rw [if_pos (by rw [hdroplen]; omega)]
  rw [droplevel]
  simp only [hkeep]
  rfl

/-- C5 witness: the index with level `['a','a']` and named level `[0, 1]`
keeps exactly its named level. -/
theorem drop_redundant_levels_single_witness :
    (drop_redundant_levels
        (.multi [[.str "a", .nat 0], [.str "a", .nat 1]] [some "l", some "k"])).nlevels = 1 :=
  drop_redundant_levels_single [[.str "a", .nat 0], [.str "a", .nat 1]] [some "l", some "k"] 1
    (by decide) (by decide) (by decide)

theorem getD_map_range (n i : Nat) (hi : i < n) (f : Nat → α) (d : α) :
    (((List.range n).map f).getD i d) = f i := by
  rw [List.getD_eq_getElem?_getD, List.getElem?_map, List.getElem?_range hi]
  rfl

theorem getLevelValues_wrap (ls : List Label) :
    getLevelValues (ls.map fun l => [l]) 0 = ls := by
  induction ls with
  | nil => rfl
  | cons x xs ih => simpa [getLevelValues] using ih

/-- C6: for every two single-level indexes of the same length, `stack`
returns a two-level index of the same length whose i-th row is the pair of
the operands' i-th labels. -/
theorem stack_two_flat (as bs : List Label) (na nb : Option String)
    (h : as.length = bs.length) :
    stack (.flat as na) [.flat bs nb] =
      Except.ok (.multi ((List.range as.length).map fun i =>
        [as.getD i dfl, bs.getD i dfl]) [na, nb]) ∧
    (PIndex.multi ((List.range as.length).map fun i =>
        [as.getD i dfl, bs.getD i dfl]) [na, nb]).nlevels = 2 ∧
    (PIndex.multi ((List.range as.length).map fun i =>
        [as.getD i dfl, bs.getD i dfl]) [na, nb]).length = as.length ∧
    ∀ i, i < as.length →
      (((List.range as.length).map fun i => [as.getD i dfl, bs.getD i dfl]).getD i [])
        = [as.getD i dfl, bs.getD i dfl] := by
  refine ⟨?_, rfl, by simp [PIndex.length_multi], fun i hi => getD_map_range _ _ hi _ _⟩
  have hs := stackPair_eq (.flat as na) (.flat bs nb) h
  show (Except.ok (PIndex.flat as na)).bind (fun index1 => stackPair index1 (.flat bs nb)) = _
  rw [Except.bind, hs]
  simp [PIndex.names, PIndex.rows, PIndex.length, fromArrays, List.range_succ,
    getLevelValues_wrap]

/-- C6 witness: `stack(Index(['a','b']), Index(['x','y']))` yields the
two-level index with rows `(a,x), (b,y)`. -/
theorem stack_two_flat_witness :
    stack (.flat [.str "a", .str "b"] none) [.flat [.str "x", .str "y"] none] =
      Except.ok (.multi [[.str "a", .str "x"], [.str "b", .str "y"]] [none, none]) := by
  have hh := (stack_two_flat [.str "a", .str "b"] [.str "x", .str "y"] none none rfl).1
  exact hh

/-- C7: for every Bar, Scatter and Heatmap widget, `update_data` succeeds
exactly when the 2-dimensional form of the data matches the declared
cardinalities: rows = len(x_labels) and columns = len(trace_names) for Bar
and Scatter, rows = len(y_labels) and columns = len(x_labels) for Heatmap. -/
theorem update_data_shape_validation (b : Bar) (s : Scatter) (hm : Heatmap)
    (d : NArray Int) :
    (isOkE (b.update_data d) =
      (decide (shapeRows (to_2d d) = b.x_labels.length) &&
        decide (shapeCols (to_2d d) = b.trace_names.length))) ∧
    (isOkE (s.update_data d) =
      (decide (shapeRows (to_2d d) = s.x_labels.length) &&
        decide (shapeCols (to_2d d) = s.trace_names.length))) ∧
    (isOkE (hm.update_data d) =
      (decide (shapeRows (to_2d d) = hm.y_labels.length) &&
        decide (shapeCols (to_2d d) = hm.x_labels.length))) := by
  refine ⟨?_, ?_, ?_⟩
  · by_cases h1 : shapeRows (to_2d d) = b.x_labels.length <;>
      by_cases h2 : shapeCols (to_2d d) = b.trace_names.length <;>
      simp [Bar.update_data, assert_same_shape, h1, h2, isOkE, okBind, errBind]
  · by_cases h1 : shapeRows (to_2d d) = s.x_labels.length <;>
      by_cases h2 : shapeCols (to_2d d) = s.trace_names.length <;>
      simp [Scatter.update_data, assert_same_shape, h1, h2, isOkE, okBind, errBind]
  · by_cases h1 : shapeCols (to_2d d) = hm.x_labels.length <;>
      by_cases h2 : shapeRows (to_2d d) = hm.y_labels.length <;>
      simp [Heatmap.update_data, assert_same_shape, h1, h2, isOkE, okBind, errBind]

/-- Default trace used for out-of-range positional access. -/
def dtrace : ScatterTrace := ⟨[], none, none, none⟩

theorem length_enumMap (f : Nat → α → β) (i : Nat) (l : List α) :
    (enumMap f i l).length = l.length := by
  induction l generalizing i with
  | nil => rfl
  | cons x xs ih => simp [enumMap, ih]

theorem getD_enumMap (f : Nat → α → β) (j : Nat) (l : List α) (i : Nat)
    (hi : i < l.length) (d : β) (e : α) :
    (enumMap f j l).getD i d = f (j + i) (l.getD i e) := by
  induction l generalizing i j with
  | nil => exact absurd hi (by simp)
  | cons x xs ih =>
    cases i with
    | zero => simp [enumMap]
    | succ m =>
      have hm : m < xs.length := by simpa using hi
      have := ih (j + 1) m hm
      simpa [enumMap, Nat.add_assoc, Nat.add_comm 1 m] using this

theorem enumMap_trace_frame (tr0 : List ScatterTrace) (g : Nat → List Int) (i : Nat) :
    ((enumMap (fun k tr => { tr with y := some (g k) }) 0 tr0).getD i dtrace).x =
      (tr0.getD i dtrace).x ∧
    ((enumMap (fun k tr => { tr with y := some (g k) }) 0 tr0).getD i dtrace).name =
      (tr0.getD i dtrace).name ∧
    ((enumMap (fun k tr => { tr with y := some (g k) }) 0 tr0).getD i dtrace).color =
      (tr0.getD i dtrace).color := by
  by_cases hi : i < tr0.length
  · rw [getD_enumMap _ 0 _ i hi dtrace dtrace]
    exact ⟨rfl, rfl, rfl⟩
  · have hle : tr0.length ≤ i := Nat.le_of_not_lt hi
    rw [List.getD_eq_default _ _ (by rw [length_enumMap]; exact hle),
      List.getD_eq_default _ _ hle]
    exact ⟨rfl, rfl, rfl⟩

theorem enumMap_trace_y (tr0 : List ScatterTrace) (g : Nat → List Int) (i : Nat)
    (hi : i < tr0.length) :
    ((enumMap (fun k tr => { tr with y := some (g k) }) 0 tr0).getD i dtrace).y = some (g i) := by
  rw [getD_enumMap _ 0 _ i hi dtrace dtrace]
  simp

/-- C8: for every Scatter widget and every correctly shaped data array,
`update_data` only writes the traces' y buffers: the x labels, names,
colors, trace count and order, and the layout are unchanged, and trace i's
y buffer becomes column i of the 2-dimensional data. -/
theorem scatter_update_frame (w : Scatter) (d : NArray Int) (w2 : Scatter)
    (h : w.update_data d = Except.ok w2) :
    w2.x_labels = w.x_labels ∧ w2.trace_names = w.trace_names ∧
    w2.layout = w.layout ∧ w2.traces.length = w.traces.length ∧
    (∀ i, (w2.traces.getD i dtrace).x = (w.traces.getD i dtrace).x ∧
        (w2.traces.getD i dtrace).name = (w.traces.getD i dtrace).name ∧
        (w2.traces.getD i dtrace).color = (w.traces.getD i dtrace).color) ∧
    ∀ i, i < w.traces.length → (w2.traces.getD i dtrace).y = some (colOf (to_2d d) i) := by
  by_cases h1 : shapeRows (to_2d d) = w.x_labels.length
  · by_cases h2 : shapeCols (to_2d d) = w.trace_names.length
    · have hw2 : { w with traces := (enumMap
          (fun i tr => { tr with y := some (colOf (to_2d d) i) }) 0 w.traces) } = w2 := by
        simp [Scatter.update_data, assert_same_shape, h1, h2, okBind, errBind] at h
        exact h
      subst hw2
      exact ⟨rfl, rfl, rfl, length_enumMap _ _ _,
        fun i => enumMap_trace_frame w.traces (fun k => colOf (to_2d d) k) i,
        fun i hi => enumMap_trace_y w.traces (fun k => colOf (to_2d d) k) i hi⟩
    · exact absurd h (by simp [Scatter.update_data, assert_same_shape, h1, h2, okBind, errBind])
  · exact absurd h (by simp [Scatter.update_data, assert_same_shape, h1, okBind, errBind])

/-- The concrete Scatter widget of the C8 witness, before its update. -/
def wScatter0 : Scatter := ⟨["x"], [some "t"], [⟨["x"], some "t", some "red", none⟩], [("w", "500")]⟩

/-- The concrete Scatter widget of the C8 witness, after its update. -/
def wScatter1 : Scatter := ⟨["x"], [some "t"], [⟨["x"], some "t", some "red", some [5]⟩], [("w", "500")]⟩

/-- C8 witness: a one-trace Scatter updated with the data `[5]` keeps its
labels, name, color and layout and gets the column `[5]` as its y buffer. -/
theorem scatter_update_frame_witness :
    wScatter1.x_labels = wScatter0.x_labels ∧
    wScatter1.trace_names = wScatter0.trace_names ∧
    wScatter1.layout = wScatter0.layout ∧
    wScatter1.traces.length = wScatter0.traces.length ∧
    (∀ i, (wScatter1.traces.getD i dtrace).x = (wScatter0.traces.getD i dtrace).x ∧
        (wScatter1.traces.getD i dtrace).name = (wScatter0.traces.getD i dtrace).name ∧
        (wScatter1.traces.getD i dtrace).color = (wScatter0.traces.getD i dtrace).color) ∧
    ∀ i, i < wScatter0.traces.length →
      (wScatter1.traces.getD i dtrace).y = some (colOf (to_2d (.d1 [5])) i) :=
  scatter_update_frame wScatter0 (.d1 [5]) wScatter1 rfl

/-- Membership of a value in a widget's stored value range. -/
def inVR (x : ℚ) (w : Indicator) : Prop :=
  ∃ lo hi, w.value_range = some (lo, hi) ∧ lo ≤ x ∧ x ≤ hi

theorem update_data_value_range (cmap : String → ℚ → Int × Int × Int)
    (w : Indicator) (v : ℚ) :
    (Indicator.update_data cmap w v).value_range =
      some (match w.value_range with
        | none => (v, v)
        | some (lo, hi) => (min lo v, max hi v)) := by
  cases hvr : w.value_range with
  | none => cases hcm : w.cmap_name <;> simp [Indicator.update_data, hvr, hcm]
  | some p =>
    cases p with
    | mk lo hi => cases hcm : w.cmap_name <;> simp [Indicator.update_data, hvr, hcm]

theorem inVR_update_self (cmap : String → ℚ → Int × Int × Int) (w : Indicator) (v : ℚ) :
    inVR v (Indicator.update_data cmap w v) := by
  unfold inVR
  rw [update_data_value_range]
  cases hvr : w.value_range with
  | none => exact ⟨v, v, rfl, le_refl v, le_refl v⟩
  | some p =>
    cases p with
    | mk lo hi => exact ⟨min lo v, max hi v, rfl, min_le_right _ _, le_max_right _ _⟩

theorem inVR_update_mono (cmap : String → ℚ → Int × Int × Int) (w : Indicator)
    (v x : ℚ) (h : inVR x w) : inVR x (Indicator.update_data cmap w v) := by
  obtain ⟨lo, hi, hvr, hl, hr⟩ := h
  unfold inVR
  rw [update_data_value_range, hvr]
  exact ⟨min lo v, max hi v, rfl, le_trans (min_le_left _ _) hl, le_trans hr (le_max_left _ _)⟩

theorem inVR_foldl_mono (cmap : String → ℚ → Int × Int × Int) (vs : List ℚ)
    (w : Indicator) (x : ℚ) (h : inVR x w) :
    inVR x (vs.foldl (Indicator.update_data cmap) w) := by
  induction vs generalizing w with
  | nil => exact h
  | cons v vs ih => exact ih _ (inVR_update_mono cmap w v x h)

theorem inVR_foldl (cmap : String → ℚ → Int × Int × Int) (vs : List ℚ) (x : ℚ) :
    x ∈ vs → ∀ w, inVR x (vs.foldl (Indicator.update_data cmap) w) := by
  induction vs with
  | nil => intro hx; cases hx
  | cons v vs ih =>
    intro hx w
    rcases List.mem_cons.mp hx with h | h
    · subst h
      exact inVR_foldl_mono cmap vs _ x (inVR_update_self cmap w x)
    · exact ih h _

/-- C9: the Indicator's stored value range is a running min/max of the
values passed to `update_data`: one update maps no range to `(v, v)` and a
range `(lo, hi)` to `(min lo v, max hi v)`, so the range never shrinks,
always contains the new value, and after any sequence of updates contains
every observed value. -/
theorem indicator_running_range (cmap : String → ℚ → Int × Int × Int)
    (w : Indicator) (v : ℚ) :
    ((Indicator.update_data cmap w v).value_range =
      some (match w.value_range with
        | none => (v, v)
        | some (lo, hi) => (min lo v, max hi v))) ∧
    (w.value_range = none → (Indicator.update_data cmap w v).value_range = some (v, v)) ∧
    (∀ lo hi, w.value_range = some (lo, hi) →
      (Indicator.update_data cmap w v).value_range = some (min lo v, max hi v) ∧
      min lo v ≤ lo ∧ hi ≤ max hi v) ∧
    inVR v (Indicator.update_data cmap w v) ∧
    ∀ vs : List ℚ, ∀ x ∈ vs, inVR x (vs.foldl (Indicator.update_data cmap) w) := by
  refine ⟨update_data_value_range cmap w v, ?_, ?_, inVR_update_self cmap w v, ?_⟩
  · intro h
    rw [update_data_value_range, h]
  · intro lo hi h
    rw [update_data_value_range, h]
    exact ⟨rfl, min_le_left _ _, le_max_left _ _⟩
  · intro vs x hx
    exact inVR_foldl cmap vs x hx w

/-- C10: the normalized position `rgb_from_cmap` computes is total: a
degenerate range takes the `0.5` branch, and in the division branch the
divisor `hi - lo` is nonzero and the computed position is the exact
quotient, so the division is never a division by zero. -/
theorem norm_value_total (v lo hi : ℚ) :
    (lo = hi → norm_value v (lo, hi) = 1 / 2) ∧
    (lo ≠ hi → hi - lo ≠ 0 ∧ norm_value v (lo, hi) * (hi - lo) = v - lo) := by
  constructor
  · intro h
    simp [norm_value, h]
  · intro h
    have hne : hi - lo ≠ 0 := sub_ne_zero_of_ne (Ne.symm h)
    refine ⟨hne, ?_⟩
    rw [norm_value, if_neg h]
    exact div_mul_cancel₀ _ hne

/-- C10 witness: a degenerate range at `(3, 3)` and a proper range `(1, 3)`
at a concrete value. -/
theorem norm_value_total_witness :
    ((3 : ℚ) = 3 → norm_value 2 (3, 3) = 1 / 2) ∧
    ((1 : ℚ) ≠ 3 → (3 : ℚ) - 1 ≠ 0 ∧ norm_value 2 (1, 3) * ((3 : ℚ) - 1) = 2 - 1) :=
  ⟨(norm_value_total 2 3 3).1, (norm_value_total 2 1 3).2⟩

end Vbt
